import Mathlib

/-!
Verification development for the Σc0,++ candidate creator
(`PWGHF/TableProducer/candidateCreatorSigmac0plusplus.cxx`).

The file embeds the two analysis tasks of that source file:

* `HfCandidateCreatorSigmac0plusplus::process` — the Λc × soft-pion
  combinatorial builder that fills the `HfCandScBase` table;
* `HfCandidateSigmac0plusplusMc::processMc` — the reconstruction-level and
  generation-level Monte-Carlo matchers that fill `HfCandScMcRec` and
  `HfCandScMcGen`.

External helpers that live elsewhere in the repository
(`RecoDecay::getMatchedMCRec`, `RecoDecay::isMatchedMCGen`,
`RecoDecay::getCharmHadronOrigin`, `TrackSelection::IsSelected`, the PDG mass
table, the kinematic functions `yLc` / `invMassLcToPKPi` / `invMassLcToPiKP`,
and the enum values of `hf_cand_3prong::DecayType` and
`hf_cand_sigmac::DecayType`) are not under the embedded source; they are
treated as black boxes (function parameters or stored field values) or
modelled from the spec where a claim depends on their behaviour.
Real-valued quantities (momenta, masses, rapidity) are modelled over ℚ.
-/

namespace Sigmac

/-- Bit position of `hf_cand_3prong::DecayType::LcToPKPi`.
Modelled from the spec: the enum lives in
`PWGHF/DataModel/CandidateReconstructionTables.h`, outside the embedded
source; only the fact that it is one fixed bit matters here. -/
def LcToPKPi : Nat := 1

/-- Bit position of `hf_cand_sigmac::DecayType::Sc0ToPKPiPi`.
Modelled from the spec: the enum value itself is immaterial; only the fact
that `1 <<< Sc0ToPKPiPi ≠ 0` is used. -/
def Sc0ToPKPiPi : Nat := 0

/-- Bit position of `hf_cand_sigmac::DecayType::ScplusplusToPKPiPi`.
Modelled from the spec: the enum value itself is immaterial; only the fact
that `1 <<< ScplusplusToPKPiPi ≠ 0` is used. -/
def ScplusplusToPKPiPi : Nat := 1

/-- PDG code of the proton (`kProton`). -/
def kProton : Int := 2212

/-- PDG code of the charged kaon (`kKPlus`). -/
def kKPlus : Int := 321

/-- PDG code of the charged pion (`kPiPlus`). -/
def kPiPlus : Int := 211

/-- PDG code of Λc+ (`o2::analysis::pdg::Code::kLambdaCPlus`). -/
def kLambdaCPlus : Int := 4122

/-- PDG code of Σc0 (`pdg::Code::kSigmaC0`). -/
def kSigmaC0 : Int := 4112

/-- PDG code of Σc++ (`pdg::Code::kSigmaCPlusPlus`). -/
def kSigmaCPlusPlus : Int := 4222

/-- PDG mass of the Λc+, `RecoDecay::getMassPDG(pdg::Code::kLambdaCPlus)`,
consumed as a black-box constant (the exact value is irrelevant to every
claim). -/
def massLcPDG : ℚ := mkRat 228646 100000

/-- Wrap-around conversion of an `int` value to `int8_t`, as performed by the
assignment `int8_t chargeSigmac = chargeLc + chargeSoftPi;`. -/
def int8ofInt (x : Int) : Int := (x + 128) % 256 - 128

/-- A track row of `TracksSigmac = soa::Join<aod::FullTracks, aod::TracksDCA>`.
Only the fields the embedded code reads are kept: the global index, the charge
sign and the momentum components.  The quality-cut inputs (η, DCA, ITS hitmap)
are consumed only through the black-box predicate `TrackSelection::IsSelected`,
which is passed to the builder as a function parameter. -/
structure Track where
  globalIndex : Int
  sign : Int
  px : ℚ
  py : ℚ
  pz : ℚ
deriving DecidableEq, Repr

/-- A Λc candidate row of `soa::Filtered<soa::Join<aod::HfCand3Prong,
aod::HfSelLc>>`.  The kinematic values `yLc(candLc)`, `invMassLcToPKPi(candLc)`
and `invMassLcToPiKP(candLc)` are computed by black-box functions of the
candidate, so they are stored as fields. -/
structure LcCand where
  globalIndex : Int
  collisionId : Int
  hfflag : Nat
  isSelLcToPKPi : Int
  isSelLcToPiKP : Int
  invMassPKPi : ℚ
  invMassPiKP : ℚ
  y : ℚ
  prong0 : Track
  prong1 : Track
  prong2 : Track
  px : ℚ
  py : ℚ
  pz : ℚ
deriving DecidableEq, Repr

/-- The configurables of `HfCandidateCreatorSigmac0plusplus` that the `process`
function reads (the soft-pion cut configurables are absorbed into the
black-box selection predicate built in `init`). -/
structure Config where
  selectionFlagLc : Int
  yCandLcMax : ℚ
  mPKPiCandLcMax : ℚ
  mPiKPCandLcMax : ℚ
deriving DecidableEq, Repr

/-- A row of the produced table `HfCandScBase` (`rowScCandidates(...)`), with
the columns in the order they are filled. -/
structure ScRow where
  collisionId : Int
  pxLc : ℚ
  pyLc : ℚ
  pzLc : ℚ
  pxSoftPi : ℚ
  pySoftPi : ℚ
  pzSoftPi : ℚ
  lcIndex : Int
  softPiIndex : Int
  hfflag : Nat
  charge : Int
  statusSpreadMinvPKPiFromPDG : Int
  statusSpreadMinvPiKPFromPDG : Int
deriving DecidableEq, Repr

/-- The framework-level `Filter filterSelectCandidateLc` applied to the Λc
table before `process` sees it:
`isSelLcToPKPi >= selectionFlagLc || isSelLcToPiKP >= selectionFlagLc`. -/
def filterSelectCandidateLc (cfg : Config) (L : LcCand) : Bool :=
  cfg.selectionFlagLc ≤ L.isSelLcToPKPi || cfg.selectionFlagLc ≤ L.isSelLcToPiKP

/-- `int chargeLc = prong0.sign() + prong1.sign() + prong2.sign();` -/
def chargeLcOf (L : LcCand) : Int :=
  L.prong0.sign + L.prong1.sign + L.prong2.sign

/-- `statusSpreadMinvPKPiFromPDG`: set to 1 iff
`candLc.isSelLcToPKPi() >= 1 && |invMassLcToPKPi(candLc) - m(Λc)| <= mPKPiCandLcMax`. -/
def statusPKPi (cfg : Config) (L : LcCand) : Int :=
  if 1 ≤ L.isSelLcToPKPi ∧ |L.invMassPKPi - massLcPDG| ≤ cfg.mPKPiCandLcMax then 1 else 0

/-- `statusSpreadMinvPiKPFromPDG`: set to 1 iff
`candLc.isSelLcToPiKP() >= 1 && |invMassLcToPiKP(candLc) - m(Λc)| <= mPiKPCandLcMax`. -/
def statusPiKP (cfg : Config) (L : LcCand) : Int :=
  if 1 ≤ L.isSelLcToPiKP ∧ |L.invMassPiKP - massLcPDG| ≤ cfg.mPiKPCandLcMax then 1 else 0

/-- Whether the soft-pion track coincides with one of the three Λc prongs
(the self-pairing exclusion `indexSoftPi == indexProng0 || ...`). -/
def isProngOf (L : LcCand) (t : Track) : Prop :=
  t.globalIndex = L.prong0.globalIndex ∨ t.globalIndex = L.prong1.globalIndex ∨
    t.globalIndex = L.prong2.globalIndex

instance (L : LcCand) (t : Track) : Decidable (isProngOf L t) := by
  unfold isProngOf; infer_instance

/-- `int8_t chargeSigmac = chargeLc + chargeSoftPi;` -/
def chargeScOf (L : LcCand) (t : Track) : Int :=
  int8ofInt (chargeLcOf L + t.sign)

/-- Body of the inner (track) loop for one `(candLc, trackSoftPi)` pair:
returns the `HfCandScBase` rows it fills (0 or 1) and the `LOG(fatal)`
messages it emits, each message carrying the contributing charges
`(chargeLc, chargeSoftPi)` it prints. -/
def processPair (isSel : Track → Bool) (L : LcCand) (sA sB : Int) (t : Track) :
    List ScRow × List (Int × Int) :=
  if ¬ isSel t then ([], [])
  else if isProngOf L t then ([], [])
  else if (chargeScOf L t).natAbs ≠ 0 ∧ (chargeScOf L t).natAbs ≠ 2 then
    ([], [(chargeLcOf L, t.sign)])
  else
    ([{ collisionId := L.collisionId
        pxLc := L.px, pyLc := L.py, pzLc := L.pz
        pxSoftPi := t.px, pySoftPi := t.py, pzSoftPi := t.pz
        lcIndex := L.globalIndex, softPiIndex := t.globalIndex
        hfflag := L.hfflag
        charge := chargeScOf L t
        statusSpreadMinvPKPiFromPDG := sA
        statusSpreadMinvPiKPFromPDG := sB }], [])

/-- The inner loop `for (auto const& trackSoftPi : tracks)` for one Λc
candidate that already passed the hfflag, rapidity and mass-window gates. -/
def trackLoop (isSel : Track → Bool) (L : LcCand) (sA sB : Int) :
    List Track → List ScRow × List (Int × Int)
  | [] => ([], [])
  | t :: ts =>
      let head := processPair isSel L sA sB t
      let rest := trackLoop isSel L sA sB ts
      (head.1 ++ rest.1, head.2 ++ rest.2)

/-- Body of the outer loop for one Λc candidate: the hfflag gate, the rapidity
gate, the mass-window gate, then the track loop. -/
def processLc (cfg : Config) (isSel : Track → Bool) (tracks : List Track)
    (L : LcCand) : List ScRow × List (Int × Int) :=
  if ¬ L.hfflag.testBit LcToPKPi then ([], [])
  else if 0 ≤ cfg.yCandLcMax ∧ cfg.yCandLcMax < |L.y| then ([], [])
  else if statusPKPi cfg L = 0 ∧ statusPiKP cfg L = 0 then ([], [])
  else trackLoop isSel L (statusPKPi cfg L) (statusPiKP cfg L) tracks

/-- `HfCandidateCreatorSigmac0plusplus::process`: the outer loop over the
(pre-filtered) Λc candidates, returning the emitted `HfCandScBase` rows and
the emitted fatal-log messages in order. -/
def process (cfg : Config) (isSel : Track → Bool) :
    List LcCand → List Track → List ScRow × List (Int × Int)
  | [], _ => ([], [])
  | L :: Ls, tracks =>
      let head := processLc cfg isSel tracks L
      let rest := process cfg isSel Ls tracks
      (head.1 ++ rest.1, head.2 ++ rest.2)

/-- A Λc candidate "qualifies" when it survives the three gates of the outer
loop body: decay-type flag set, rapidity accepted, at least one mass
hypothesis within tolerance. -/
def qualLc (cfg : Config) (L : LcCand) : Bool :=
  L.hfflag.testBit LcToPKPi &&
    !(decide (0 ≤ cfg.yCandLcMax ∧ cfg.yCandLcMax < |L.y|)) &&
    !(decide (statusPKPi cfg L = 0 ∧ statusPiKP cfg L = 0))

/-- A track "qualifies" with respect to a Λc candidate when it survives the
three gates of the inner loop body: quality filter, self-pairing exclusion,
valid charge magnitude. -/
def qualTrack (isSel : Track → Bool) (L : LcCand) (t : Track) : Bool :=
  isSel t && !(decide (isProngOf L t)) &&
    !(decide ((chargeScOf L t).natAbs ≠ 0 ∧ (chargeScOf L t).natAbs ≠ 2))

/-- A row of `aod::McParticles`: PDG code and the indices of its daughters in
the same table. -/
structure McParticle where
  pdgCode : Int
  daughters : List Nat
deriving DecidableEq, Repr

/-- PDG codes of the immediate daughters of a generated particle
(`particle.daughters_as<aod::McParticles>()`). -/
def daughterPdgs (ps : List McParticle) (p : McParticle) : List Int :=
  p.daughters.filterMap (fun i => ps[i]?.map McParticle.pdgCode)

/-- Modelled from the spec: `RecoDecay::isMatchedMCGen` (in
`Common/Core/RecoDecay.h`, outside the embedded source).  Per the spec it is a
charge-conjugation-aware generation-level match: the particle must be of the
requested mother species (or its antiparticle, since every call site passes
`acceptAntiParticles = true`), and its daughter pattern must match the
requested PDG pattern, globally sign-flipped for the antiparticle; the matched
sign (+1 particle, −1 antiparticle) is reported.  Decay depths beyond the
immediate daughters (resonant intermediate channels) are not modelled, as no
claim depends on them: every use below is decided by the mother-species test
or by an immediate-daughter pattern. -/
def isMatchedMCGen (ps : List McParticle) (p : McParticle) (pdgMother : Int)
    (pattern : List Int) : Option Int :=
  if p.pdgCode = pdgMother then
    if (daughterPdgs ps p).Perm pattern then some 1 else none
  else if p.pdgCode = -pdgMother then
    if (daughterPdgs ps p).Perm (pattern.map (fun c => -c)) then some (-1) else none
  else none

instance (l l' : List Int) : Decidable (l.Perm l') := List.decidablePerm l l'

/-- A reconstructed Σc candidate row as seen by `processMc`: the
reconstruction-level MC-match flag of its Λc (`candLc.flagMcMatchRec()`) and
its stored charge (`candSigmac.charge()`).  The generated-particle truth of
its four daughter tracks is consumed only through the black-box
`RecoDecay::getMatchedMCRec`, which is passed in as a function parameter. -/
structure ScCandMc where
  lcFlagMcMatchRec : Int
  charge : Int
deriving DecidableEq, Repr

/-- Result of one iteration of the reconstruction-matching loop: the emitted
`(flagMcMatchRec, originMcRec)` label, whether an ancestry-matching call
(`RecoDecay::getMatchedMCRec`) was performed, and the value left in the
mutable variable `indexRec` at the end of the iteration. -/
structure RecStep where
  label : Int × Int
  attempted : Bool
  indexRec : Int
deriving DecidableEq, Repr

/-- One iteration of the loop over reconstructed Σc candidates.  `mSc0` and
`mScpp` stand for the two `RecoDecay::getMatchedMCRec` calls (for the Σc0 and
Σc++ daughter patterns respectively), each returning the matched generated
index and the charge-conjugation sign, or `none`; `getOrigin i` stands for
`RecoDecay::getCharmHadronOrigin(particlesMc, particlesMc.rawIteratorAt(i))`. -/
def recMatchOne (mSc0 mScpp : ScCandMc → Option (Nat × Int)) (getOrigin : Int → Int)
    (cand : ScCandMc) : RecStep :=
  if ¬ cand.lcFlagMcMatchRec.natAbs = 1 <<< LcToPKPi then
    { label := (0, 0), attempted := false, indexRec := -1 }
  else if cand.charge = 0 then
    match mSc0 cand with
    | some (i, s) =>
        let flag := s * ((1 <<< Sc0ToPKPiPi : Nat) : Int)
        { label := (flag, if flag ≠ 0 then getOrigin i else 0),
          attempted := true, indexRec := i }
    | none => { label := (0, 0), attempted := true, indexRec := -1 }
  else if cand.charge.natAbs = 2 then
    match mScpp cand with
    | some (i, s) =>
        let flag := s * ((1 <<< ScplusplusToPKPiPi : Nat) : Int)
        { label := (flag, if flag ≠ 0 then getOrigin i else 0),
          attempted := true, indexRec := i }
    | none => { label := (0, 0), attempted := true, indexRec := -1 }
  else
    { label := (0, 0), attempted := false, indexRec := -1 }

/-- The loop over reconstructed Σc candidates, threading the mutable
`indexRec` (initialised to −1 before the loop and reset at each iteration):
returns the `HfCandScMcRec` rows in order and the final value of `indexRec`,
which the source leaves in scope for the generated-particle loop. -/
def recLoopAux (mSc0 mScpp : ScCandMc → Option (Nat × Int)) (getOrigin : Int → Int) :
    Int → List ScCandMc → List (Int × Int) × Int
  | idx, [] => ([], idx)
  | _, c :: cs =>
      let st := recMatchOne mSc0 mScpp getOrigin c
      let rest := recLoopAux mSc0 mScpp getOrigin st.indexRec cs
      (st.label :: rest.1, rest.2)

/-- The reconstruction-matching loop started with `int indexRec = -1;`. -/
def recLoop (mSc0 mScpp : ScCandMc → Option (Nat × Int)) (getOrigin : Int → Int)
    (cands : List ScCandMc) : List (Int × Int) × Int :=
  recLoopAux mSc0 mScpp getOrigin (-1) cands

/-- The scan over `particle.daughters_as<aod::McParticles>()` looking for a
Λc-species daughter whose second-level decay check succeeds, stopping at the
first success.  It mirrors the source exactly: the second-level call
`RecoDecay::isMatchedMCGen(particlesMc, particle, kLambdaCPlus, {p, K−, π+}, true, &sign, 2)`
receives `particle` — the Σc under scrutiny — and not the Λc `daughter` being
scanned. -/
def lcDaughterScan (ps : List McParticle) (p : McParticle) : List Nat → Option Int
  | [] => none
  | i :: is =>
      match ps[i]? with
      | none => lcDaughterScan ps p is
      | some d =>
          if d.pdgCode.natAbs ≠ kLambdaCPlus.natAbs then lcDaughterScan ps p is
          else
            match isMatchedMCGen ps p kLambdaCPlus [kProton, -kKPlus, kPiPlus] with
            | some s => some s
            | none => lcDaughterScan ps p is

/-- One iteration of the loop over generated particles.  Returns the emitted
`(flagMcMatchGen, originMcGen)` label together with the anchor index passed to
`RecoDecay::getCharmHadronOrigin` when the origin block runs (`none` when it
does not run).  `indexRec` is the value the reconstruction loop left in that
variable — the origin block of the source reads
`particlesMc.rawIteratorAt(indexRec)`, so `getOrigin` is invoked on it, not on
the current particle. -/
def genMatchOne (ps : List McParticle) (getOrigin : Int → Int) (indexRec : Int)
    (p : McParticle) : (Int × Int) × Option Int :=
  let flag :=
    match isMatchedMCGen ps p kSigmaC0 [kLambdaCPlus, -kPiPlus] with
    | some _ =>
        match lcDaughterScan ps p p.daughters with
        | some s => s * ((1 <<< Sc0ToPKPiPi : Nat) : Int)
        | none => 0
    | none =>
        match isMatchedMCGen ps p kSigmaCPlusPlus [kLambdaCPlus, kPiPlus] with
        | some _ =>
            match lcDaughterScan ps p p.daughters with
            | some s => s * ((1 <<< ScplusplusToPKPiPi : Nat) : Int)
            | none => 0
        | none => 0
  if flag ≠ 0 then ((flag, getOrigin indexRec), some indexRec)
  else ((flag, 0), none)

/-- The loop over generated particles: the `HfCandScMcGen` rows in order. -/
def genLabels (ps : List McParticle) (getOrigin : Int → Int) (indexRec : Int) :
    List (Int × Int) :=
  ps.map (fun p => (genMatchOne ps getOrigin indexRec p).1)

/-- The anchor indices on which the generated-particle loop invokes the
origin-classification routine, in order. -/
def genAnchors (ps : List McParticle) (getOrigin : Int → Int) (indexRec : Int) :
    List Int :=
  ps.filterMap (fun p => (genMatchOne ps getOrigin indexRec p).2)

/-- `HfCandidateSigmac0plusplusMc::processMc`: the reconstruction-matching
loop followed by the generation-matching loop, the latter seeing the final
`indexRec` of the former. -/
def processMc (mSc0 mScpp : ScCandMc → Option (Nat × Int)) (getOrigin : Int → Int)
    (cands : List ScCandMc) (ps : List McParticle) :
    List (Int × Int) × List (Int × Int) :=
  let r := recLoop mSc0 mScpp getOrigin cands
  (r.1, genLabels ps getOrigin r.2)

/-! ## Concrete fixtures used by witnesses and counterexamples -/

/-- A track with zero momentum: only the identifier and the sign matter. -/
def wTrack (i s : Int) : Track := ⟨i, s, 0, 0, 0⟩

/-- The default configuration of the task: `selectionFlagLc = 1`,
`yCandLcMax = -1` (disabled), mass windows `0.03`. -/
def wCfg : Config := ⟨1, -1, mkRat 3 100, mkRat 3 100⟩

/-- A quality filter accepting every track. -/
def wSel : Track → Bool := fun _ => true

/-- A Λc candidate with the `LcToPKPi` flag bit set, the pKπ hypothesis
selected at exactly the PDG mass, and prongs of signs +1, −1, +1 with global
identifiers 10, 11, 12 (spec scenario A). -/
def wLc : LcCand :=
  ⟨100, 7, 2, 1, 0, massLcPDG, 0, 0, wTrack 10 1, wTrack 11 (-1), wTrack 12 1, 0, 0, 0⟩

/-- A Λc candidate selected under neither mass hypothesis (spec scenario C). -/
def wLcBad : LcCand :=
  ⟨101, 7, 2, 0, 0, massLcPDG, 0, 0, wTrack 10 1, wTrack 11 (-1), wTrack 12 1, 0, 0, 0⟩

/-- The row `process` emits for `wLc` with the soft-pion track of identifier
20 and sign −1. -/
def wRow : ScRow := ⟨7, 0, 0, 0, 0, 0, 0, 100, 20, 2, 0, 1, 0⟩

/-- A generated-particle table holding a true Σc0 → Λc+(→ p K− π+) π− chain:
index 0 is the Σc0, index 1 its Λc+ daughter, index 2 its π− daughter,
indices 3, 4, 5 the p, K−, π+ daughters of the Λc+. -/
def psW : List McParticle :=
  [⟨4112, [1, 2]⟩, ⟨4122, [3, 4, 5]⟩, ⟨-211, []⟩, ⟨2212, []⟩, ⟨-321, []⟩, ⟨211, []⟩]

/-- The generated Σc0 of `psW`. -/
def sc0W : McParticle := ⟨4112, [1, 2]⟩

/-- The generated Λc+ daughter of `sc0W` in `psW`. -/
def lcW : McParticle := ⟨4122, [3, 4, 5]⟩

/-! ## Helper lemmas about the candidate builder -/

/-- Characterisation of a row emitted for one `(candLc, trackSoftPi)` pair. -/
theorem mem_processPair {isSel : Track → Bool} {L : LcCand} {sA sB : Int}
    {t : Track} {row : ScRow} (h : row ∈ (processPair isSel L sA sB t).1) :
    isSel t = true ∧ ¬ isProngOf L t ∧
      row.charge = chargeScOf L t ∧
      (row.charge.natAbs = 0 ∨ row.charge.natAbs = 2) ∧
      row.softPiIndex = t.globalIndex ∧ row.lcIndex = L.globalIndex := by
  unfold processPair at h
  split at h
  · simp at h
  · split at h
    · simp at h
    · split at h
      · simp at h
      · rename_i hsel hpro hch
        simp only [List.mem_singleton] at h
        subst h
        refine ⟨by simpa using hsel, hpro, rfl, ?_, rfl, rfl⟩
        by_cases h0 : (chargeScOf L t).natAbs = 0
        · exact Or.inl h0
        · right
          by_contra h2
          exact hch ⟨h0, h2⟩

/-- A pair whose track coincides with a Λc prong emits no row. -/
theorem processPair_self_pairing {isSel : Track → Bool} {L : LcCand}
    {sA sB : Int} {t : Track} (h : isProngOf L t) :
    (processPair isSel L sA sB t).1 = [] := by
  unfold processPair
  split
  · rfl
  · simp [h]

/-- Every row emitted by the track loop is emitted by one of its pairs. -/
theorem mem_trackLoop {isSel : Track → Bool} {L : LcCand} {sA sB : Int}
    {ts : List Track} {row : ScRow} (h : row ∈ (trackLoop isSel L sA sB ts).1) :
    ∃ t ∈ ts, row ∈ (processPair isSel L sA sB t).1 := by
  induction ts with
  | nil => simp [trackLoop] at h
  | cons t ts ih =>
      unfold trackLoop at h
      rw [List.mem_append] at h
      rcases h with h | h
      · exact ⟨t, List.mem_cons_self t ts, h⟩
      · obtain ⟨u, hu, hrow⟩ := ih h
        exact ⟨u, List.mem_cons_of_mem t hu, hrow⟩

/-- Every row emitted for a Λc candidate comes from its track loop, with the
status values the mass-window check computed. -/
theorem mem_processLc {cfg : Config} {isSel : Track → Bool} {tracks : List Track}
    {L : LcCand} {row : ScRow} (h : row ∈ (processLc cfg isSel tracks L).1) :
    ∃ t ∈ tracks,
      row ∈ (processPair isSel L (statusPKPi cfg L) (statusPiKP cfg L) t).1 := by
  unfold processLc at h
  split at h
  · simp at h
  · split at h
    · simp at h
    · split at h
      · simp at h
      · exact mem_trackLoop h

/-- Every row emitted by `process` comes from one of the Λc candidates. -/
theorem mem_process {cfg : Config} {isSel : Track → Bool} {cands : List LcCand}
    {tracks : List Track} {row : ScRow}
    (h : row ∈ (process cfg isSel cands tracks).1) :
    ∃ L ∈ cands, row ∈ (processLc cfg isSel tracks L).1 := by
  induction cands with
  | nil => simp [process] at h
  | cons L Ls ih =>
      unfold process at h
      rw [List.mem_append] at h
      rcases h with h | h
      · exact ⟨L, List.mem_cons_self L Ls, h⟩
      · obtain ⟨M, hM, hrow⟩ := ih h
        exact ⟨M, List.mem_cons_of_mem L hM, hrow⟩

/-- One pair contributes one row iff the track qualifies for the Λc. -/
theorem processPair_rows_length (isSel : Track → Bool) (L : LcCand) (sA sB : Int)
    (t : Track) :
    (processPair isSel L sA sB t).1.length = if qualTrack isSel L t then 1 else 0 := by
  by_cases hs : isSel t <;> by_cases hp : isProngOf L t <;>
    by_cases h0 : (chargeScOf L t).natAbs = 0 <;>
      by_cases h2 : (chargeScOf L t).natAbs = 2 <;>
        simp [processPair, qualTrack, hs, hp, h0, h2]

/-- The track loop contributes one row per qualifying track. -/
theorem trackLoop_rows_length (isSel : Track → Bool) (L : LcCand) (sA sB : Int)
    (ts : List Track) :
    (trackLoop isSel L sA sB ts).1.length =
      (ts.filter (qualTrack isSel L)).length := by
  induction ts with
  | nil => rfl
  | cons t ts ih =>
      show ((processPair isSel L sA sB t).1 ++ (trackLoop isSel L sA sB ts).1).length = _
      rw [List.length_append, processPair_rows_length, ih]
      by_cases hq : qualTrack isSel L t <;> simp [List.filter_cons, hq, Nat.add_comm]

/-- A Λc candidate contributes one row per qualifying track when it qualifies,
and no row otherwise. -/
theorem processLc_rows_length (cfg : Config) (isSel : Track → Bool)
    (tracks : List Track) (L : LcCand) :
    (processLc cfg isSel tracks L).1.length =
      if qualLc cfg L then (tracks.filter (qualTrack isSel L)).length else 0 := by
  by_cases h1 : L.hfflag.testBit LcToPKPi <;>
    by_cases h2 : 0 ≤ cfg.yCandLcMax ∧ cfg.yCandLcMax < |L.y| <;>
      by_cases h3 : statusPKPi cfg L = 0 ∧ statusPiKP cfg L = 0 <;>
        simp [processLc, qualLc, h1, h2, h3, trackLoop_rows_length]

/-- The total row count of `process` is the sum, over qualifying Λc
candidates, of the respective qualifying-track counts. -/
theorem process_rows_length (cfg : Config) (isSel : Track → Bool)
    (cands : List LcCand) (tracks : List Track) :
    (process cfg isSel cands tracks).1.length =
      ((cands.filter (qualLc cfg)).map
        (fun L => (tracks.filter (qualTrack isSel L)).length)).sum := by
  induction cands with
  | nil => rfl
  | cons L Ls ih =>
      show ((processLc cfg isSel tracks L).1 ++ (process cfg isSel Ls tracks).1).length = _
      rw [List.length_append, ih, processLc_rows_length]
      by_cases hq : qualLc cfg L <;> simp [List.filter_cons, hq]

/-- Summing a function that is constantly `N` over a list. -/
theorem sum_map_const {α : Type} (l : List α) (f : α → Nat) (N : Nat)
    (h : ∀ x ∈ l, f x = N) : (l.map f).sum = l.length * N := by
  induction l with
  | nil => simp
  | cons x xs ih =>
      simp only [List.map_cons, List.sum_cons, List.length_cons]
      rw [h x (List.mem_cons_self x xs), ih (fun y hy => h y (List.mem_cons_of_mem x hy))]
      ring

/-! ## Helper lemmas about the Monte-Carlo matchers -/

/-- A successful generation-level match forces the particle to be of the
requested mother species up to charge conjugation. -/
theorem isMatchedMCGen_pdg {ps : List McParticle} {p : McParticle}
    {pdgMother : Int} {pattern : List Int} {s : Int}
    (h : isMatchedMCGen ps p pdgMother pattern = some s) :
    p.pdgCode = pdgMother ∨ p.pdgCode = -pdgMother := by
  unfold isMatchedMCGen at h
  split at h
  · exact Or.inl (by assumption)
  · split at h
    · exact Or.inr (by assumption)
    · simp at h

/-- The daughter scan of the generated-particle loop always fails when the
particle handed to the second-level check is not of the Λc species, because
the source passes the Σc `particle` there rather than the `daughter`. -/
theorem lcDaughterScan_eq_none {ps : List McParticle} {p : McParticle}
    (h1 : p.pdgCode ≠ kLambdaCPlus) (h2 : p.pdgCode ≠ -kLambdaCPlus)
    (l : List Nat) : lcDaughterScan ps p l = none := by
  induction l with
  | nil => rfl
  | cons i is ih =>
      have hmm : isMatchedMCGen ps p kLambdaCPlus [kProton, -kKPlus, kPiPlus] = none := by
        unfold isMatchedMCGen
        rw [if_neg h1, if_neg h2]
      cases hgi : ps[i]? with
      | none => simp [lcDaughterScan, hgi, ih]
      | some d =>
          by_cases hd : d.pdgCode.natAbs ≠ kLambdaCPlus.natAbs
          · simp [lcDaughterScan, hgi, hd, ih]
          · simp [lcDaughterScan, hgi, hd, hmm, ih]

/-- The generated-particle loop body never sets a nonzero channel flag and
never invokes the origin-classification routine: whichever species the
level-1 match accepts (Σc0 or Σc++), its PDG code differs from ±Λc, so the
second-level check — performed on the Σc `particle` itself — returns no
match. -/
theorem genMatchOne_eq (ps : List McParticle) (getOrigin : Int → Int)
    (indexRec : Int) (p : McParticle) :
    genMatchOne ps getOrigin indexRec p = ((0, 0), none) := by
  unfold genMatchOne
  cases h1 : isMatchedMCGen ps p kSigmaC0 [kLambdaCPlus, -kPiPlus] with
  | some s =>
      have hscan : lcDaughterScan ps p p.daughters = none := by
        rcases isMatchedMCGen_pdg h1 with h | h <;>
          exact lcDaughterScan_eq_none
            (by rw [h]; decide) (by rw [h]; decide) _
      simp [hscan]
  | none =>
      cases h2 : isMatchedMCGen ps p kSigmaCPlusPlus [kLambdaCPlus, kPiPlus] with
      | some s =>
          have hscan : lcDaughterScan ps p p.daughters = none := by
            rcases isMatchedMCGen_pdg h2 with h | h <;>
              exact lcDaughterScan_eq_none
                (by rw [h]; decide) (by rw [h]; decide) _
          simp [hscan]
      | none => simp

/-- The labels of the reconstruction-matching loop are the per-candidate
labels in input order, whatever `indexRec` the loop starts from. -/
theorem recLoopAux_labels (mSc0 mScpp : ScCandMc → Option (Nat × Int))
    (getOrigin : Int → Int) (idx : Int) (cs : List ScCandMc) :
    (recLoopAux mSc0 mScpp getOrigin idx cs).1 =
      cs.map (fun c => (recMatchOne mSc0 mScpp getOrigin c).label) := by
  induction cs generalizing idx with
  | nil => rfl
  | cons c cs ih => simp [recLoopAux, ih]

/-! ## Claim theorems -/

/-- C1: every `HfCandScBase` row emitted by
`HfCandidateCreatorSigmac0plusplus::process` carries a derived net charge
(the int8 sum of the three Λc prong signs and the soft-pion sign) in
{−2, 0, +2}; no row of any other charge is written. -/
theorem charge_domain (cfg : Config) (isSel : Track → Bool)
    (cands : List LcCand) (tracks : List Track) (row : ScRow)
    (h : row ∈ (process cfg isSel cands tracks).1) :
    row.charge = -2 ∨ row.charge = 0 ∨ row.charge = 2 := by
  obtain ⟨L, _, hL⟩ := mem_process h
  obtain ⟨t, _, ht⟩ := mem_processLc hL
  obtain ⟨_, _, _, habs, _, _⟩ := mem_processPair ht
  rcases habs with h0 | h2
  · exact Or.inr (Or.inl (Int.natAbs_eq_zero.mp h0))
  · rcases Int.natAbs_eq_iff.mp h2 with h | h
    · exact Or.inr (Or.inr (by exact_mod_cast h))
    · exact Or.inl (by exact_mod_cast h)

unseal Rat.sub in
/-- Witness for C1: in spec scenario A, `process` emits the charge-0 row
`wRow`, whose charge the theorem then places in {−2, 0, +2}. -/
theorem charge_domain_witness :
    wRow ∈ (process wCfg wSel [wLc] [wTrack 20 (-1), wTrack 21 1]).1 ∧
      (wRow.charge = -2 ∨ wRow.charge = 0 ∨ wRow.charge = 2) :=
  ⟨by decide,
    charge_domain wCfg wSel [wLc] [wTrack 20 (-1), wTrack 21 1] wRow (by decide)⟩

/-- C2: with M the number of qualifying Λc candidates and N the per-candidate
number of qualifying tracks (quality filter, self-pairing exclusion, valid
charge magnitude), `process` emits exactly M × N rows, and the count is
monotonic in both M and N. -/
theorem combinatorial_completeness (cfg : Config) (isSel : Track → Bool)
    (cands : List LcCand) (tracks : List Track) (N : Nat)
    (hN : ∀ L ∈ cands, qualLc cfg L = true →
      (tracks.filter (qualTrack isSel L)).length = N) :
    (process cfg isSel cands tracks).1.length =
        (cands.filter (qualLc cfg)).length * N ∧
      ∀ M2 N2 : Nat, (cands.filter (qualLc cfg)).length ≤ M2 → N ≤ N2 →
        (process cfg isSel cands tracks).1.length ≤ M2 * N2 := by
  have hconst : ∀ L ∈ cands.filter (qualLc cfg),
      (tracks.filter (qualTrack isSel L)).length = N := by
    intro L hL
    rw [List.mem_filter] at hL
    exact hN L hL.1 hL.2
  have hsum := sum_map_const _ _ N hconst
  have hlen : (process cfg isSel cands tracks).1.length =
      (cands.filter (qualLc cfg)).length * N := by
    rw [process_rows_length, hsum]
  exact ⟨hlen, fun M2 N2 hM hN2 => hlen ▸ Nat.mul_le_mul hM hN2⟩

unseal Rat.sub in
/-- Witness for C2: spec scenario A — one qualifying Λc, two qualifying
tracks — yields exactly 1 × 2 rows. -/
theorem combinatorial_completeness_witness :
    (∀ L ∈ [wLc], qualLc wCfg L = true →
        (([wTrack 20 (-1), wTrack 21 1]).filter (qualTrack wSel L)).length = 2) ∧
      ((process wCfg wSel [wLc] [wTrack 20 (-1), wTrack 21 1]).1.length =
          (([wLc]).filter (qualLc wCfg)).length * 2 ∧
        ∀ M2 N2 : Nat, (([wLc]).filter (qualLc wCfg)).length ≤ M2 → 2 ≤ N2 →
          (process wCfg wSel [wLc] [wTrack 20 (-1), wTrack 21 1]).1.length ≤ M2 * N2) :=
  ⟨by decide,
    combinatorial_completeness wCfg wSel [wLc] [wTrack 20 (-1), wTrack 21 1] 2
      (by decide)⟩

/-- C3: the soft-pion identifier of every emitted row differs from all three prong
identifiers of its Λc candidate, and a pair whose track is one of the prongs
emits no row at all. -/
theorem no_self_pairing (cfg : Config) (isSel : Track → Bool)
    (cands : List LcCand) (tracks : List Track) (row : ScRow)
    (h : row ∈ (process cfg isSel cands tracks).1) :
    (∃ L ∈ cands, row.lcIndex = L.globalIndex ∧
        row.softPiIndex ≠ L.prong0.globalIndex ∧
        row.softPiIndex ≠ L.prong1.globalIndex ∧
        row.softPiIndex ≠ L.prong2.globalIndex) ∧
      ∀ (L : LcCand) (t : Track) (sA sB : Int), isProngOf L t →
        (processPair isSel L sA sB t).1 = [] := by
  constructor
  · obtain ⟨L, hLmem, hL⟩ := mem_process h
    obtain ⟨t, _, ht⟩ := mem_processLc hL
    obtain ⟨_, hnp, _, _, hsoft, hlc⟩ := mem_processPair ht
    refine ⟨L, hLmem, hlc, ?_, ?_, ?_⟩
    · rw [hsoft]; exact fun he => hnp (Or.inl he)
    · rw [hsoft]; exact fun he => hnp (Or.inr (Or.inl he))
    · rw [hsoft]; exact fun he => hnp (Or.inr (Or.inr he))
  · intro L t sA sB hp
    exact processPair_self_pairing hp

unseal Rat.sub in
/-- Witness for C3: spec scenario B — the track reusing prong identifier 10
is excluded and the soft-pion identifier of the emitted row avoids all prongs. -/
theorem no_self_pairing_witness :
    wRow ∈ (process wCfg wSel [wLc] [wTrack 10 (-1), wTrack 20 (-1)]).1 ∧
      ((∃ L ∈ [wLc], wRow.lcIndex = L.globalIndex ∧
          wRow.softPiIndex ≠ L.prong0.globalIndex ∧
          wRow.softPiIndex ≠ L.prong1.globalIndex ∧
          wRow.softPiIndex ≠ L.prong2.globalIndex) ∧
        ∀ (L : LcCand) (t : Track) (sA sB : Int), isProngOf L t →
          (processPair wSel L sA sB t).1 = []) :=
  ⟨by decide,
    no_self_pairing wCfg wSel [wLc] [wTrack 10 (-1), wTrack 20 (-1)] wRow
      (by decide)⟩

/-- C4: a Λc candidate satisfying neither mass-hypothesis window
(`pass_A`/`pass_B` both false) contributes no row, whatever the track list. -/
theorem mass_window_gating (cfg : Config) (isSel : Track → Bool)
    (tracks : List Track) (L : LcCand)
    (hA : ¬ (1 ≤ L.isSelLcToPKPi ∧ |L.invMassPKPi - massLcPDG| ≤ cfg.mPKPiCandLcMax))
    (hB : ¬ (1 ≤ L.isSelLcToPiKP ∧ |L.invMassPiKP - massLcPDG| ≤ cfg.mPiKPCandLcMax)) :
    (processLc cfg isSel tracks L).1 = [] := by
  have hA0 : statusPKPi cfg L = 0 := by unfold statusPKPi; rw [if_neg hA]
  have hB0 : statusPiKP cfg L = 0 := by unfold statusPiKP; rw [if_neg hB]
  unfold processLc
  split
  · rfl
  · split
    · rfl
    · rw [if_pos ⟨hA0, hB0⟩]

unseal Rat.sub in
/-- Witness for C4: spec scenario C — a Λc selected under neither hypothesis
yields zero rows even with an available track. -/
theorem mass_window_gating_witness :
    (¬ (1 ≤ wLcBad.isSelLcToPKPi ∧
          |wLcBad.invMassPKPi - massLcPDG| ≤ wCfg.mPKPiCandLcMax)) ∧
      (¬ (1 ≤ wLcBad.isSelLcToPiKP ∧
          |wLcBad.invMassPiKP - massLcPDG| ≤ wCfg.mPiKPCandLcMax)) ∧
      (processLc wCfg wSel [wTrack 20 (-1)] wLcBad).1 = [] :=
  ⟨by decide, by decide,
    mass_window_gating wCfg wSel [wTrack 20 (-1)] wLcBad (by decide) (by decide)⟩

/-- C9: a pair whose charge sum has magnitude other than 0 or 2 produces a
log message carrying the contributing charges and no row, and the track loop
continues with the remaining tracks unaffected. -/
theorem charge_anomaly_drops_pair (isSel : Track → Bool) (L : LcCand)
    (sA sB : Int) (t : Track) (ts : List Track) (hsel : isSel t = true)
    (hnp : ¬ isProngOf L t)
    (hc : (chargeScOf L t).natAbs ≠ 0 ∧ (chargeScOf L t).natAbs ≠ 2) :
    processPair isSel L sA sB t = ([], [(chargeLcOf L, t.sign)]) ∧
      trackLoop isSel L sA sB (t :: ts) =
        ((trackLoop isSel L sA sB ts).1,
          (chargeLcOf L, t.sign) :: (trackLoop isSel L sA sB ts).2) := by
  have hpp : processPair isSel L sA sB t = ([], [(chargeLcOf L, t.sign)]) := by
    unfold processPair
    rw [if_neg (by simp [hsel]), if_neg hnp, if_pos hc]
  refine ⟨hpp, ?_⟩
  simp [trackLoop, hpp]

unseal Rat.sub in
/-- Witness for C9: a sign-0 track against prongs of signs +1, −1, +1 gives
charge sum 1; the pair is logged and dropped, the remaining track still
produces its row. -/
theorem charge_anomaly_drops_pair_witness :
    wSel (wTrack 20 0) = true ∧ ¬ isProngOf wLc (wTrack 20 0) ∧
      ((chargeScOf wLc (wTrack 20 0)).natAbs ≠ 0 ∧
        (chargeScOf wLc (wTrack 20 0)).natAbs ≠ 2) ∧
      (processPair wSel wLc 1 0 (wTrack 20 0) = ([], [(1, 0)]) ∧
        trackLoop wSel wLc 1 0 (wTrack 20 0 :: [wTrack 21 1]) =
          ((trackLoop wSel wLc 1 0 [wTrack 21 1]).1,
            (1, 0) :: (trackLoop wSel wLc 1 0 [wTrack 21 1]).2)) :=
  ⟨by decide, by decide, by decide, by
    have h := charge_anomaly_drops_pair wSel wLc 1 0 (wTrack 20 0) [wTrack 21 1]
      (by decide) (by decide) (by decide)
    simpa [chargeLcOf, wLc, wTrack] using h⟩

/-- C7: a reconstructed Σc candidate whose Λc reconstruction-level MC-match
flag does not have the exact expected magnitude gets label (0, 0) at once:
no ancestry match is attempted, whatever the matching oracles and the origin
routine would return. -/
theorem rec_short_circuit (mSc0 mScpp : ScCandMc → Option (Nat × Int))
    (getOrigin : Int → Int) (cand : ScCandMc)
    (h : cand.lcFlagMcMatchRec.natAbs ≠ 1 <<< LcToPKPi) :
    recMatchOne mSc0 mScpp getOrigin cand =
      { label := (0, 0), attempted := false, indexRec := -1 } := by
  unfold recMatchOne
  rw [if_pos h]

/-- Witness for C7: a candidate with `flagMcMatchRec = 0` is short-circuited
even though both matching oracles would report a match. -/
theorem rec_short_circuit_witness :
    (⟨0, 0⟩ : ScCandMc).lcFlagMcMatchRec.natAbs ≠ 1 <<< LcToPKPi ∧
      recMatchOne (fun _ => some (5, 1)) (fun _ => some (6, -1)) (fun _ => 7)
          ⟨0, 0⟩ =
        { label := (0, 0), attempted := false, indexRec := -1 } :=
  ⟨by decide,
    rec_short_circuit (fun _ => some (5, 1)) (fun _ => some (6, -1)) (fun _ => 7)
      ⟨0, 0⟩ (by decide)⟩

/-- C10: for a candidate that passed the exact-match precondition but whose
stored charge is neither 0 nor of magnitude 2, neither matching branch runs
and the emitted label is (0, 0), whatever the oracles would return. -/
theorem rec_total_over_charge (mSc0 mScpp : ScCandMc → Option (Nat × Int))
    (getOrigin : Int → Int) (cand : ScCandMc)
    (h1 : cand.lcFlagMcMatchRec.natAbs = 1 <<< LcToPKPi)
    (h2 : cand.charge ≠ 0) (h3 : cand.charge.natAbs ≠ 2) :
    recMatchOne mSc0 mScpp getOrigin cand =
      { label := (0, 0), attempted := false, indexRec := -1 } := by
  unfold recMatchOne
  rw [if_neg (not_not_intro h1), if_neg h2, if_neg h3]

/-- Witness for C10: a candidate with the exact match flag but stored charge
1 yields (0, 0) with no matching attempted, although both oracles would
match. -/
theorem rec_total_over_charge_witness :
    (⟨2, 1⟩ : ScCandMc).lcFlagMcMatchRec.natAbs = 1 <<< LcToPKPi ∧
      (⟨2, 1⟩ : ScCandMc).charge ≠ 0 ∧ (⟨2, 1⟩ : ScCandMc).charge.natAbs ≠ 2 ∧
      recMatchOne (fun _ => some (5, 1)) (fun _ => some (6, -1)) (fun _ => 7)
          ⟨2, 1⟩ =
        { label := (0, 0), attempted := false, indexRec := -1 } :=
  ⟨by decide, by decide, by decide,
    rec_total_over_charge (fun _ => some (5, 1)) (fun _ => some (6, -1))
      (fun _ => 7) ⟨2, 1⟩ (by decide) (by decide) (by decide)⟩

/-- C8: both matchers emit exactly one label per input row, in input order:
the reconstruction loop outputs the per-candidate labels in candidate
order, the generation loop outputs the per-particle labels in particle
order, and both lengths match their inputs. -/
theorem matcher_order_alignment (mSc0 mScpp : ScCandMc → Option (Nat × Int))
    (getOrigin : Int → Int) (cands : List ScCandMc) (ps : List McParticle)
    (indexRec : Int) :
    (recLoop mSc0 mScpp getOrigin cands).1 =
        cands.map (fun c => (recMatchOne mSc0 mScpp getOrigin c).label) ∧
      (recLoop mSc0 mScpp getOrigin cands).1.length = cands.length ∧
      genLabels ps getOrigin indexRec =
        ps.map (fun p => (genMatchOne ps getOrigin indexRec p).1) ∧
      (genLabels ps getOrigin indexRec).length = ps.length ∧
      (processMc mSc0 mScpp getOrigin cands ps).1.length = cands.length ∧
      (processMc mSc0 mScpp getOrigin cands ps).2.length = ps.length := by
  have hrec := recLoopAux_labels mSc0 mScpp getOrigin (-1) cands
  refine ⟨hrec, ?_, rfl, ?_, ?_, ?_⟩
  · rw [show recLoop mSc0 mScpp getOrigin cands =
      recLoopAux mSc0 mScpp getOrigin (-1) cands from rfl, hrec, List.length_map]
  · simp [genLabels]
  · show (recLoop mSc0 mScpp getOrigin cands).1.length = cands.length
    rw [show recLoop mSc0 mScpp getOrigin cands =
      recLoopAux mSc0 mScpp getOrigin (-1) cands from rfl, hrec, List.length_map]
  · simp [processMc, genLabels]

/-- C5 (refuting the claim as stated): the generated-particle loop never sets
a nonzero channel flag — even on a table holding a true
Σc0 → Λc+(→ p K− π+) π− chain whose level-1 daughter pattern matches and
whose Λc+ daughter demonstrably decays into p K− π+ — because the
second-level check receives the Σc `particle` instead of the Λc `daughter`
and therefore fails its mother-species test. -/
theorem gen_flag_never_set :
    (∀ (ps : List McParticle) (getOrigin : Int → Int) (indexRec : Int)
        (p : McParticle), genMatchOne ps getOrigin indexRec p = ((0, 0), none)) ∧
      isMatchedMCGen psW sc0W kSigmaC0 [kLambdaCPlus, -kPiPlus] = some 1 ∧
      psW[1]? = some lcW ∧ (1 : Nat) ∈ sc0W.daughters ∧
      isMatchedMCGen psW lcW kLambdaCPlus [kProton, -kKPlus, kPiPlus] = some 1 ∧
      (genMatchOne psW (fun _ => 0) (-1) sc0W).1 = (0, 0) :=
  ⟨genMatchOne_eq, by decide, by decide, by decide, by decide, by decide⟩

/-- C6 (refuting the claim as stated): the origin-classification routine is
never invoked by the generated-particle loop — its anchor list is always
empty, the emitted origin is always 0, and the labels do not depend on the
origin routine or on the `indexRec` the reconstruction loop left behind (the
anchor the source would use if the guard could fire). -/
theorem gen_origin_never_classified :
    (∀ (ps : List McParticle) (getOrigin : Int → Int) (indexRec : Int),
        genAnchors ps getOrigin indexRec = []) ∧
      (∀ (ps : List McParticle) (g g2 : Int → Int) (i i2 : Int) (p : McParticle),
        (genMatchOne ps g i p).1 = (genMatchOne ps g2 i2 p).1) ∧
      (∀ (ps : List McParticle) (getOrigin : Int → Int) (indexRec : Int)
        (p : McParticle), ((genMatchOne ps getOrigin indexRec p).1).2 = 0) := by
  refine ⟨?_, ?_, ?_⟩
  · intro ps g i
    simp [genAnchors, genMatchOne_eq]
  · intro ps g g2 i i2 p
    rw [genMatchOne_eq, genMatchOne_eq]
  · intro ps g i p
    rw [genMatchOne_eq]

end Sigmac
